import Mathlib

/-!
Verification development for the sails-hook-sequelize schema-convergence hook
(src/index.js). The JavaScript source is shallowly embedded: objects become
structures with optional fields (a JS `undefined` field is `none`), stateful
registries become explicit association lists that are threaded through the
embedded functions, asynchronous database round-trips become oracle
parameters, and a JS `TypeError` raised by reading a property of `undefined`
becomes an explicit error value. Logging calls and global-namespace exposure
are side effects with no observable influence on the data flow and are not
modelled; the external ORM (Sequelize) is modelled only at its interface
boundary (the shape of `define`, `sync`, `showAllSchemas`, raw queries).
-/

set_option autoImplicit false

deriving instance DecidableEq for Except

namespace SailsSequelize

/-- An index specification as carried in a model definition's
`options.indexes` (and in a bound model's `_indexes` list).
All three fields are optional in the source objects. -/
structure IndexSpec where
  name : Option String := none
  fields : Option (List String) := none
  unique : Option Bool := none
deriving DecidableEq

/-- The `options` object of a model definition
(`{tableName?, schema?, indexes?}`; the remaining option keys the source
passes through verbatim to the ORM are not observed by the hook itself). -/
structure ModelOptions where
  tableName : Option String := none
  schema : Option String := none
  indexes : Option (List IndexSpec) := none
deriving DecidableEq

/-- The `through.model` value of an object-form `belongsToMany` call:
either a model object (whose `.name` is read) or a plain model-name string
(for which reading `.name` yields `undefined`, so the string itself is used:
`options.through.model.name || options.through.model`). -/
inductive ThroughModelRef where
  | modelObj (name : String)
  | modelStr (name : String)
deriving DecidableEq

/-- The object form of a `through` option in a `belongsToMany` call. -/
structure ThroughObj where
  model : Option ThroughModelRef := none
  unique : Option Bool := none
deriving DecidableEq

/-- A `through` value: a plain table-name string or an object. -/
inductive ThroughVal where
  | str (s : String)
  | obj (o : ThroughObj)
deriving DecidableEq

/-- The options object of a `belongsToMany` association call
(only the fields the hook inspects or mutates are modelled). -/
structure BTMOptions where
  through : Option ThroughVal := none
  uniqueKey : Option Bool := none
deriving DecidableEq

/-- One `belongsToMany` request issued by a model definition's
`associations` function: the target model and the options object. -/
structure BTMCall where
  target : String
  opts : BTMOptions
deriving DecidableEq

/-- A raw model definition as handed to the hook by the module loader.
`associations = some calls` models a definition whose `associations`
property is a function that issues exactly those junction-table calls;
`none` models a definition whose `associations` is absent, null, or not a
function. -/
structure ModelDef where
  globalId : String
  connection : Option String := none
  datastore : Option String := none
  options : Option ModelOptions := none
  associations : Option (List BTMCall) := none
deriving DecidableEq

/-- A model realized against a connection (the ORM model class as the hook
observes it): its name, the connection it was defined on, its table name,
the verbatim define options, and the mutable pending-index list
(`_indexes`). -/
structure BoundModel where
  name : String
  connectionName : String
  tableName : String
  options : Option ModelOptions := none
  pendingIndexes : List IndexSpec := []
deriving DecidableEq

/-- The `sails.models` registry: a JS object mapping lower-cased global
identifiers to bound models, embedded as an association list (assignment
replaces the value of an existing key in place, or appends a new key). -/
abbrev Registry := List (String × BoundModel)

/-- Property read on the registry object (`sails.models[k]`). -/
def regGet : Registry → String → Option BoundModel
  | [], _ => none
  | e :: rest, k => if e.1 = k then some e.2 else regGet rest k

/-- Property assignment on the registry object (`sails.models[k] = v`). -/
def regSet : Registry → String → BoundModel → Registry
  | [], k, v => [(k, v)]
  | e :: rest, k, v => if e.1 = k then (k, v) :: rest else e :: regSet rest k v

/-- Lower-casing of an identifier (the source's toLowerCase). Defined by a
structural map over the character list so that concrete instances compute
inside the kernel. -/
def strToLower (s : String) : String := ⟨s.data.map Char.toLower⟩

/-! ## The overridden module loader (configure) -/

/-- The predicate of the overridden `sails.modules.loadModels`: a definition
is handed back to the Waterline side exactly when
`typeof model.options === 'undefined' || typeof model.options.tableName === 'undefined'`. -/
def waterlineKeep (m : ModelDef) : Bool :=
  match m.options with
  | none => true
  | some o => o.tableName.isNone

/-- The overridden loader body: rebuild the models object keeping only the
definitions detected as Waterline models. -/
def loadModelsOverride : List (String × ModelDef) → List (String × ModelDef)
  | [] => []
  | (k, m) :: rest =>
    if waterlineKeep m then (k, m) :: loadModelsOverride rest
    else loadModelsOverride rest

/-! ## Connection configuration and initConnections -/

/-- The `options.logging` value of a connection config: a string log level,
or the log function it is replaced with. -/
inductive LogSetting where
  | str (s : String)
  | fn (level : String)
deriving DecidableEq

/-- The nested `options` object of a connection config. -/
structure ConnOptions where
  dialect : Option String := none
  logging : Option LogSetting := none
deriving DecidableEq

/-- One entry of `sails.config.connections` / `sails.config.datastores`. -/
structure ConnConfig where
  adapter : Option String := none
  dialect : Option String := none
  options : Option ConnOptions := none
  url : Option String := none
  database : Option String := none
  user : Option String := none
  password : Option String := none
deriving DecidableEq

/-- The constructed Sequelize connection handle, recorded by the form of
the constructor call that produced it. -/
inductive SequelizeConn where
  | fromUrl (url : String) (options : ConnOptions)
  | fromCredentials (database user password : Option String) (options : ConnOptions)
deriving DecidableEq

/-- The connections map built by initConnections. -/
abbrev Connections := List (String × SequelizeConn)

/-- Lookup in the connections map (`connections[name]`). -/
def connGet (cs : Connections) (k : String) : Option SequelizeConn :=
  (cs.find? (fun e => e.1 == k)).map (·.2)

/-- The combined dialect read `connection.dialect || connection.options.dialect`,
on configs whose `options` object exists or whose top-level dialect is set. -/
def effectiveDialect (c : ConnConfig) : Option String :=
  match c.dialect with
  | some d => some d
  | none => c.options.bind (·.dialect)

/-- The skip test
`connection.adapter || !(connection.dialect || connection.options.dialect)`:
`.ok true` means the entry is skipped, `.ok false` means it is processed,
and reading `.dialect` when `options` is `undefined` raises a TypeError. -/
def connIsSkipped (c : ConnConfig) : Except String Bool :=
  if c.adapter.isSome then .ok true
  else
    match c.dialect with
    | some _ => .ok false
    | none =>
      match c.options with
      | none => .error "TypeError: Cannot read property dialect of undefined"
      | some o => .ok o.dialect.isNone

/-- Logging normalization: a non-empty string log level is replaced by the
corresponding sails log function. -/
def normalizeLogging (o : ConnOptions) : ConnOptions :=
  match o.logging with
  | some (.str s) => if s = "" then o else { o with logging := some (.fn s) }
  | _ => o

/-- Constructing the connection for one owned entry: default the missing
`options` object to `{}`, normalize logging, then use the url form when
`connection.url` is set and the credentials form otherwise. -/
def buildConnection (c : ConnConfig) : SequelizeConn :=
  let opts := normalizeLogging (c.options.getD {})
  match c.url with
  | some u => .fromUrl u opts
  | none => .fromCredentials c.database c.user c.password opts

/-- The `for (connectionName in datastores)` loop of initConnections. -/
def initConnectionsLoop : List (String × ConnConfig) → Except String Connections
  | [] => .ok []
  | (nm, c) :: rest =>
    match connIsSkipped c with
    | .error e => .error e
    | .ok skip =>
      match initConnectionsLoop rest with
      | .error e => .error e
      | .ok tail => if skip then .ok tail else .ok ((nm, buildConnection c) :: tail)

/-- initConnections: throw when the default connection name has no entry,
otherwise build one live connection per owned entry. -/
def initConnections (datastores : List (String × ConnConfig)) (datastoreName : String) :
    Except String Connections :=
  if datastores.any (fun p => p.1 == datastoreName) then
    initConnectionsLoop datastores
  else
    .error ("Default connection " ++ datastoreName ++ " not found in config/connections")

/-! ## defineModels: three passes over the model definitions -/

/-- The ownership discriminator used by every defineModels pass
(`if (!modelDef.options) continue`). -/
def ownedDef (d : ModelDef) : Bool := d.options.isSome

/-- Lower-cased registry key of a definition. -/
def keyOf (d : ModelDef) : String := strToLower d.globalId

/-- Connection-name resolution
(`modelDef.connection || modelDef.datastore || defaultConnection`). -/
def resolveConnectionName (d : ModelDef) (defaultConnection : String) : String :=
  match d.connection with
  | some c => c
  | none =>
    match d.datastore with
    | some c => c
    | none => defaultConnection

/-- The ORM boundary `connections[connectionName].define(globalId, attributes,
options)`, modelled at its interface: the realized model keeps the global
identifier, the connection it was defined on, the verbatim options, the table
name (taken from `options.tableName` when given; the external default naming
of the ORM is not modelled further), and the initial `_indexes` list the ORM
derives from `options.indexes`. The merging of class/instance extension
methods and global exposure are external side effects and are not modelled. -/
def defineBoundModel (connectionName : String) (d : ModelDef) (o : ModelOptions) : BoundModel :=
  { name := d.globalId
    connectionName := connectionName
    tableName := o.tableName.getD d.globalId
    options := some o
    pendingIndexes := o.indexes.getD [] }

/-- First pass of defineModels: realize every owned definition on its
resolved connection and register it under the lower-cased global identifier.
Reading `.define` on a missing connection raises a TypeError. The returned
trace lists the global identifiers that were realized, in order. -/
def defineModelsPass1 (conns : Connections) (defaultConnection : String) :
    List ModelDef → Registry → List String → Except String (Registry × List String)
  | [], reg, tr => .ok (reg, tr)
  | d :: rest, reg, tr =>
    match d.options with
    | none => defineModelsPass1 conns defaultConnection rest reg tr
    | some o =>
      let cn := resolveConnectionName d defaultConnection
      match connGet conns cn with
      | none => .error "TypeError: Cannot read property define of undefined"
      | some _ =>
        defineModelsPass1 conns defaultConnection rest
          (regSet reg (keyOf d) (defineBoundModel cn d o)) (tr ++ [d.globalId])

/-! ## setAssociation and the temporary belongsToMany interception -/

/-- The process-global `Sequelize.Model.belongsToMany` slot: `overridden`
is true exactly while the interception installed by setAssociation is in
place. -/
structure BTMState where
  overridden : Bool
deriving DecidableEq

/-- Resolution of the through-model name
(`options.through.model.name || options.through.model`). -/
def resolveThroughModelName : ThroughModelRef → String
  | .modelObj n => n
  | .modelStr s => s

/-- The test performed by the interception on the resolved through model:
it is registered, carries an options object with an `indexes` list, and some
index there has `unique === false` and exactly two fields. -/
def throughHasNonUniqueIndex (reg : Registry) (t : ThroughObj) : Bool :=
  match t.model with
  | none => false
  | some ref =>
    match regGet reg (strToLower (resolveThroughModelName ref)) with
    | none => false
    | some bm =>
      match bm.options with
      | none => false
      | some o =>
        match o.indexes with
        | none => false
        | some idxs =>
          idxs.any fun idx =>
            idx.unique == some false &&
              (match idx.fields with
               | some fs => fs.length == 2
               | none => false)

/-- The body of the temporary belongsToMany replacement: for an object-form
`through`, suppress the implicit unique key when the through model carries a
non-unique two-field index, and also when `through.unique === false`; then
delegate to the captured original method with the adjusted options. -/
def interceptedBelongsToMany (reg : Registry) (opts : BTMOptions) : BTMOptions :=
  match opts.through with
  | some (.obj t) =>
    let opts1 :=
      if throughHasNonUniqueIndex reg t then { opts with uniqueKey := some false } else opts
    if t.unique == some false then { opts1 with uniqueKey := some false } else opts1
  | _ => opts

/-- Dispatch of one belongsToMany call through the current state of the
process-global method slot. -/
def dispatchBelongsToMany (reg : Registry) (st : BTMState) (c : BTMCall) : BTMCall :=
  if st.overridden then { c with opts := interceptedBelongsToMany reg c.opts } else c

/-- setAssociation for one definition: when `associations` is a function,
capture the current belongsToMany slot, install the interception, run the
function (each of its calls dispatching through the overridden slot), then
restore the captured slot. Returns the effective calls as received by the
original method, and the slot state after the function returns. -/
def setAssociation (reg : Registry) (st : BTMState) (d : ModelDef) :
    List BTMCall × BTMState :=
  match d.associations with
  | none => ([], st)
  | some calls =>
    let captured := st
    let during : BTMState := { overridden := true }
    (calls.map (dispatchBelongsToMany reg during), captured)

/-- Second pass of defineModels: run setAssociation for every owned
definition, sequentially, threading the process-global method slot.
(setDefaultScope only evaluates the definition's scope function and hands
the result to the external ORM; it has no effect on the data modelled here
and is elided.) -/
def defineModelsPass2 (reg : Registry) : List ModelDef → BTMState → List BTMCall × BTMState
  | [], st => ([], st)
  | d :: rest, st =>
    if ownedDef d then
      let out := setAssociation reg st d
      let tail := defineModelsPass2 reg rest out.2
      (out.1 ++ tail.1, tail.2)
    else defineModelsPass2 reg rest st

/-! ## Third pass: junction-index accumulation -/

/-- Eligibility of an index entry for the junction pass:
`index.unique === false && index.fields && index.fields.length >= 2`. -/
def junctionIndexEligible (idx : IndexSpec) : Bool :=
  idx.unique == some false &&
    (match idx.fields with
     | some fs => decide (2 ≤ fs.length)
     | none => false)

/-- The forEach body of the third pass on one index entry: append an
eligible entry to the pending list unless an entry with the same
(JSON-stringified) `fields` value is already pending. -/
def pushJunctionIndex (pending : List IndexSpec) (idx : IndexSpec) : List IndexSpec :=
  if junctionIndexEligible idx then
    if pending.any (fun p => p.fields == idx.fields) then pending
    else pending ++ [idx]
  else pending

/-- Third pass of defineModels, one definition: skip definitions without
`options` or without `options.indexes`, skip unregistered models, and fold
every declared index entry into the registered model's pending list. -/
def defineModelsPass3Step (reg : Registry) (d : ModelDef) : Registry :=
  match d.options with
  | none => reg
  | some o =>
    match o.indexes with
    | none => reg
    | some idxs =>
      match regGet reg (keyOf d) with
      | none => reg
      | some bm =>
        regSet reg (keyOf d) { bm with pendingIndexes := idxs.foldl pushJunctionIndex bm.pendingIndexes }

/-- Third pass of defineModels over all definitions. -/
def defineModelsPass3 (models : List ModelDef) (reg : Registry) : Registry :=
  models.foldl defineModelsPass3Step reg

/-! ## deduplicateIndexes: dialect-specific index introspection -/

/-- One row of the Postgres catalog query
`SELECT indexname, indexdef FROM pg_indexes WHERE tablename = ...`. -/
structure PgIndexRow where
  indexname : String
  indexdef : String
deriving DecidableEq

/-- One row of the MySQL `SHOW INDEX FROM table` query. -/
structure MysqlIndexRow where
  keyName : String
  columnName : String
  nonUnique : Int
deriving DecidableEq

/-- An existing-index record as deduplicateIndexes reports it
(the Postgres branch fills `definition`, the MySQL branch fills `columns`
and `unique`). -/
structure ExistingIndex where
  name : String
  definition : Option String := none
  columns : Option String := none
  unique : Option Bool := none
deriving DecidableEq

/-- The database-facing behaviour of one live connection, as an oracle:
the result of the two raw introspection queries (keyed by the table name
used in the query text), the schema listing, and the outcome of the
structural sync call. -/
structure ConnOracle where
  pgIndexQuery : String → Except String (List PgIndexRow) := fun _ => .ok []
  mysqlIndexQuery : String → Except String (List MysqlIndexRow) := fun _ => .ok []
  showAllSchemasResult : List String := []
  syncResult : Except String Unit := .ok ()

/-- deduplicateIndexes: introspect existing indexes for a table. The
Postgres branch queries `pg_indexes` with the lower-cased table name, the
MySQL branch runs `SHOW INDEX`; any other dialect runs no query and keeps
the initial empty list; any query failure is caught and yields the empty
list. -/
def deduplicateIndexes (conn : ConnOracle) (tableName dialect : String) :
    List ExistingIndex :=
  if dialect = "postgres" then
    match conn.pgIndexQuery (strToLower tableName) with
    | .ok rows => rows.map fun r => { name := r.indexname, definition := some r.indexdef }
    | .error _ => []
  else if dialect = "mysql" then
    match conn.mysqlIndexQuery tableName with
    | .ok rows =>
      rows.map fun r =>
        { name := r.keyName, columns := some r.columnName, unique := some (r.nonUnique == (0 : Int)) }
    | .error _ => []
  else []

/-! ## migrateSchema -/

/-- A database round-trip issued during migration, tagged with the
connection it is issued on. `introspect` records an invocation of
deduplicateIndexes for a table. -/
inductive DbCall where
  | introspect (conn table dialect : String)
  | showAllSchemas (conn : String)
  | createSchema (conn schemaName : String)
  | sync (conn : String) (force alter : Bool)
deriving DecidableEq

/-- The switch on the migration strategy (reached only when the strategy is
not `safe`): `drop` forces recreation, `alter` allows altering, anything
else leaves both flags false. -/
def migrateFlags (migrate : String) : Bool × Bool :=
  if migrate = "drop" then (true, false)
  else if migrate = "alter" then (false, true)
  else (false, false)

/-- The derived index name used by the smart-migration filter:
`idx.name || tableName + '_' + idx.fields.join('_')`; when the fallback is
taken and `idx.fields` is `undefined`, reading `.join` raises a TypeError. -/
def derivedIndexName (tableName : String) (idx : IndexSpec) : Except String String :=
  match idx.name with
  | some n =>
    if n = "" then
      match idx.fields with
      | some fs => .ok (tableName ++ "_" ++ String.intercalate "_" fs)
      | none => .error "TypeError: Cannot read property join of undefined"
    else .ok n
  | none =>
    match idx.fields with
    | some fs => .ok (tableName ++ "_" ++ String.intercalate "_" fs)
    | none => .error "TypeError: Cannot read property join of undefined"

/-- The `for (const idx of model._indexes)` filter loop of the smart task:
keep exactly the pending indexes whose derived name is not among the
introspected existing names. -/
def filterNewIndexes (existing : List ExistingIndex) (tableName : String) :
    List IndexSpec → Except String (List IndexSpec)
  | [] => .ok []
  | idx :: rest =>
    match derivedIndexName tableName idx with
    | .error e => .error e
    | .ok nm =>
      match filterNewIndexes existing tableName rest with
      | .error e => .error e
      | .ok tail =>
        if existing.any (fun e => e.name == nm) then .ok tail else .ok (idx :: tail)

/-- One model inside the smart-migration task: skip definitions without
options and unregistered models; otherwise introspect the model's table and
replace a non-empty pending-index list with the filtered list. The third
component is the first uncaught error, `none` while none occurred. -/
def smartModelStep (conn : ConnOracle) (connName dialect : String) (d : ModelDef)
    (reg : Registry) (calls : List DbCall) : Registry × List DbCall × Option String :=
  match d.options with
  | none => (reg, calls, none)
  | some _ =>
    match regGet reg (keyOf d) with
    | none => (reg, calls, none)
    | some bm =>
      let existing := deduplicateIndexes conn bm.tableName dialect
      let calls2 := calls ++ [DbCall.introspect connName bm.tableName dialect]
      if bm.pendingIndexes.isEmpty then (reg, calls2, none)
      else
        match filterNewIndexes existing bm.tableName bm.pendingIndexes with
        | .error e => (reg, calls2, some e)
        | .ok newIndexes =>
          (regSet reg (keyOf d) { bm with pendingIndexes := newIndexes }, calls2, none)

/-- The `for (const modelName in models)` loop of the smart-migration task;
an error thrown for one model aborts the remaining models. -/
def smartModelsLoop (conn : ConnOracle) (connName dialect : String) :
    List ModelDef → Registry → List DbCall → Registry × List DbCall × Option String
  | [], reg, calls => (reg, calls, none)
  | d :: rest, reg, calls =>
    let out := smartModelStep conn connName dialect d reg calls
    match out.2.2 with
    | none => smartModelsLoop conn connName dialect rest out.1 out.2.1
    | some e => (out.1, out.2.1, some e)

/-- The outcome of one synchronization task: the registry it left behind,
the database calls it issued, and its error (if it rejected). -/
structure TaskOutcome where
  registry : Registry
  calls : List DbCall
  error : Option String
deriving DecidableEq

/-- The body of the async function the smart-migration branch builds for
one connection when smartMigrate is enabled and the alter flag is set:
filter every model's pending indexes, then invoke the connection's sync
primitive with the run's flags. Note that the branch pushes this function
itself onto the task list without invoking it, so this body is never
executed by the run — see runSyncTask. -/
def smartSyncTask (conn : ConnOracle) (connName dialect : String) (force alter : Bool)
    (models : List ModelDef) (reg : Registry) : TaskOutcome :=
  let out := smartModelsLoop conn connName dialect models reg []
  match out.2.2 with
  | some e => ⟨out.1, out.2.1, some e⟩
  | none =>
    let calls := out.2.1 ++ [DbCall.sync connName force alter]
    match conn.syncResult with
    | .ok _ => ⟨out.1, calls, none⟩
    | .error e => ⟨out.1, calls, some e⟩

/-- The schema pre-creation loop of the Postgres task: for every model
definition, read `modelDef.options.schema || ''` (raising a TypeError when
`options` is `undefined`) and fire a createSchema call for any non-empty
schema not yet listed, recording it as now existing. -/
def pgSchemaLoop (connName : String) :
    List ModelDef → List String → List DbCall → List String × List DbCall × Option String
  | [], schemas, calls => (schemas, calls, none)
  | d :: rest, schemas, calls =>
    match d.options with
    | none => (schemas, calls, some "TypeError: Cannot read property schema of undefined")
    | some o =>
      let tableSchema := o.schema.getD ""
      if tableSchema ≠ "" && !(schemas.contains tableSchema) then
        pgSchemaLoop connName rest (schemas ++ [tableSchema])
          (calls ++ [DbCall.createSchema connName tableSchema])
      else pgSchemaLoop connName rest schemas calls

/-- The task pushed for a Postgres connection outside the smart path: list
the existing schema namespaces, create any missing referenced namespace,
then invoke the sync primitive with the run's flags. -/
def pgSyncTask (conn : ConnOracle) (connName : String) (force alter : Bool)
    (models : List ModelDef) : List DbCall × Option String :=
  let out := pgSchemaLoop connName models conn.showAllSchemasResult
    [DbCall.showAllSchemas connName]
  match out.2.2 with
  | some e => (out.2.1, some e)
  | none =>
    let calls := out.2.1 ++ [DbCall.sync connName force alter]
    match conn.syncResult with
    | .ok _ => (calls, none)
    | .error e => (calls, some e)

/-- The plain task for any other connection: invoke the sync primitive
directly with the run's flags. -/
def plainSyncTask (conn : ConnOracle) (connName : String) (force alter : Bool) :
    List DbCall × Option String :=
  let calls := [DbCall.sync connName force alter]
  match conn.syncResult with
  | .ok _ => (calls, none)
  | .error e => (calls, some e)

/-- A synchronization task as pushed onto the task list by the connection
loop of migrateSchema. -/
inductive SyncTask where
  | smart (connName dialect : String)
  | pg (connName : String)
  | plain (connName : String)
deriving DecidableEq

/-- The connection a task belongs to. -/
def SyncTask.connName : SyncTask → String
  | .smart nm _ => nm
  | .pg nm => nm
  | .plain nm => nm

/-- The connection loop of migrateSchema: skip foreign connections (the
skip test may raise), contribute no task under dryRun, and otherwise pick
the smart task (when smartMigrate and the alter flag are both set), the
Postgres task, or the plain task. -/
def buildSyncTasks (smartMigrate dryRun alterFlag : Bool) :
    List (String × ConnConfig) → Except String (List SyncTask)
  | [] => .ok []
  | (nm, c) :: rest =>
    match connIsSkipped c with
    | .error e => .error e
    | .ok skip =>
      if skip then buildSyncTasks smartMigrate dryRun alterFlag rest
      else
        let dialect := (effectiveDialect c).getD ""
        if dryRun then buildSyncTasks smartMigrate dryRun alterFlag rest
        else
          let task : SyncTask :=
            if smartMigrate && alterFlag then .smart nm dialect
            else if dialect = "postgres" then .pg nm
            else .plain nm
          match buildSyncTasks smartMigrate dryRun alterFlag rest with
          | .error e => .error e
          | .ok tail => .ok (task :: tail)

/-- Run one element of the task list as Promise.all observes it. The smart
branch pushed the async function itself onto the task list without
invoking it, and Promise.all treats a non-thenable function element as an
already-settled value, so awaiting a smart element executes none of the
function's body (smartSyncTask above): no introspection, no filtering, no
sync call, and no error, with the registry untouched. The pg and plain
branches pushed live promises, whose work does run. -/
def runSyncTask (env : String → ConnOracle) (force alter : Bool)
    (models : List ModelDef) (reg : Registry) : SyncTask → TaskOutcome
  | .smart _ _ => ⟨reg, [], none⟩
  | .pg nm =>
    let out := pgSyncTask (env nm) nm force alter models
    ⟨reg, out.1, out.2⟩
  | .plain nm =>
    let out := plainSyncTask (env nm) nm force alter
    ⟨reg, out.1, out.2⟩

/-- Run all built tasks (Promise.all: a failing task does not cancel its
siblings; the first error, in task order, is the reported one). -/
def runSyncTasks (env : String → ConnOracle) (force alter : Bool) (models : List ModelDef) :
    List SyncTask → Registry → Registry × List DbCall × Option String
  | [], reg => (reg, [], none)
  | t :: rest, reg =>
    let o := runSyncTask env force alter models reg t
    let tail := runSyncTasks env force alter models rest o.registry
    (tail.1, o.calls ++ tail.2.1, match o.error with | some e => some e | none => tail.2.2)

/-- How a migration run terminates: the completion callback invoked without
error, the callback invoked with the first task error, or a synchronous
exception before any task ran (the callback is never invoked). -/
inductive MigrateResult where
  | ok
  | err (msg : String)
  | thrown (msg : String)
deriving DecidableEq

/-- What a migration run did: the database calls issued, the registry it
left behind, and how it terminated. -/
structure MigrateOutcome where
  calls : List DbCall
  registry : Registry
  result : MigrateResult
deriving DecidableEq

/-- migrateSchema: a `safe` strategy completes immediately with no tasks;
otherwise resolve the sync flags from the strategy, build one task per
owned connection (none under dryRun), complete immediately under dryRun,
and otherwise run all tasks and report the first task error, if any. -/
def migrateSchema (smartMigrate dryRun : Bool) (migrate : String)
    (datastores : List (String × ConnConfig)) (models : List ModelDef)
    (reg : Registry) (env : String → ConnOracle) : MigrateOutcome :=
  if migrate = "safe" then ⟨[], reg, .ok⟩
  else
    let flags := migrateFlags migrate
    match buildSyncTasks smartMigrate dryRun flags.2 datastores with
    | .error e => ⟨[], reg, .thrown e⟩
    | .ok tasks =>
      if dryRun then ⟨[], reg, .ok⟩
      else
        let out := runSyncTasks env flags.1 flags.2 models tasks reg
        ⟨out.2.1, out.1, match out.2.2 with | none => .ok | some e => .err e⟩

/-! ## Specification-side helper notions used to state the theorems -/

/-- A connection config whose skip test cannot raise: it has an adapter,
or a top-level dialect, or an options object. -/
def connWellFormed (c : ConnConfig) : Bool :=
  !(c.adapter.isNone && c.dialect.isNone && c.options.isNone)

/-- A connection config owned by the hook: no foreign adapter marker and a
dialect declared at either level. -/
def ownedConn (c : ConnConfig) : Bool :=
  c.adapter.isNone && (effectiveDialect c).isSome

/-- The task the connection loop picks for one owned connection when not
under dryRun. -/
def taskFor (smartMigrate alterFlag : Bool) (nm : String) (c : ConnConfig) : SyncTask :=
  let dialect := (effectiveDialect c).getD ""
  if smartMigrate && alterFlag then .smart nm dialect
  else if dialect = "postgres" then .pg nm
  else .plain nm

/-! ## Basic lemmas about the registry and the helper notions -/

theorem regGet_set_self (reg : Registry) (k : String) (v : BoundModel) :
    regGet (regSet reg k v) k = some v := by
  induction reg with
  | nil => simp [regGet, regSet]
  | cons e rest ih =>
    by_cases h : e.1 = k
    · simp [regGet, regSet, h]
    · simp [regGet, regSet, h, ih]

theorem regGet_set_ne (reg : Registry) (k k2 : String) (v : BoundModel) (h : k2 ≠ k) :
    regGet (regSet reg k v) k2 = regGet reg k2 := by
  induction reg with
  | nil =>
    have hk : ¬(k = k2) := fun he => h he.symm
    simp [regGet, regSet, hk]
  | cons e rest ih =>
    by_cases he : e.1 = k
    · subst he
      have hk : ¬(e.1 = k2) := fun he2 => h he2.symm
      simp [regGet, regSet, hk]
    · by_cases he2 : e.1 = k2
      · simp [regGet, regSet, he, he2, h]
      · simp [regGet, regSet, he, he2, ih]

theorem connIsSkipped_wf {c : ConnConfig} (h : connWellFormed c = true) :
    connIsSkipped c = .ok (!(ownedConn c)) := by
  unfold connWellFormed at h
  unfold connIsSkipped ownedConn effectiveDialect
  cases ha : c.adapter with
  | some a => simp [ha]
  | none =>
    cases hd : c.dialect with
    | some d => simp [ha, hd]
    | none =>
      cases ho : c.options with
      | none => simp [ha, hd, ho] at h
      | some o => cases hod : o.dialect <;> simp [ha, hd, ho, hod, Option.bind]

theorem taskFor_connName (sm al : Bool) (nm : String) (c : ConnConfig) :
    (taskFor sm al nm c).connName = nm := by
  unfold taskFor
  by_cases h1 : sm && al
  · simp [h1, SyncTask.connName]
  · by_cases h2 : (effectiveDialect c).getD "" = "postgres" <;>
      simp [h1, h2, SyncTask.connName]

theorem pgSchemaLoop_calls (nm : String) :
    ∀ (models : List ModelDef) (schemas : List String) (calls : List DbCall),
      (∀ x ∈ calls, x ∈ (pgSchemaLoop nm models schemas calls).2.1) ∧
      (∀ x ∈ (pgSchemaLoop nm models schemas calls).2.1,
        x ∈ calls ∨ ∃ sc, x = DbCall.createSchema nm sc) := by
  intro models
  induction models with
  | nil => intro schemas calls; exact ⟨fun x hx => by simpa [pgSchemaLoop] using hx,
      fun x hx => Or.inl (by simpa [pgSchemaLoop] using hx)⟩
  | cons d rest ih =>
    intro schemas calls
    cases ho : d.options with
    | none =>
      refine ⟨fun x hx => by simpa [pgSchemaLoop, ho] using hx,
        fun x hx => Or.inl (by simpa [pgSchemaLoop, ho] using hx)⟩
    | some o =>
      by_cases hc : (o.schema.getD "" ≠ "" && !(schemas.contains (o.schema.getD ""))) = true
      · have hrec := ih (schemas ++ [o.schema.getD ""])
          (calls ++ [DbCall.createSchema nm (o.schema.getD "")])
        refine ⟨fun x hx => ?_, fun x hx => ?_⟩
        · simp only [pgSchemaLoop, ho, hc, if_true]
          exact hrec.1 x (by simp [hx])
        · simp only [pgSchemaLoop, ho, hc, if_true] at hx
          rcases hrec.2 x hx with hx2 | hx2
          · rcases List.mem_append.mp hx2 with hx3 | hx3
            · exact Or.inl hx3
            · exact Or.inr ⟨o.schema.getD "", by simpa using hx3⟩
          · exact Or.inr hx2
      · have hrec := ih schemas calls
        refine ⟨fun x hx => ?_, fun x hx => ?_⟩
        · simp only [pgSchemaLoop, ho, hc, if_false]
          exact hrec.1 x hx
        · simp only [pgSchemaLoop, ho, hc, if_false] at hx
          exact hrec.2 x hx

theorem pgSyncTask_calls_shape (conn : ConnOracle) (nm : String) (f a : Bool)
    (models : List ModelDef) :
    ∀ x ∈ (pgSyncTask conn nm f a models).1,
      x = DbCall.showAllSchemas nm ∨ (∃ sc, x = DbCall.createSchema nm sc) ∨
        x = DbCall.sync nm f a := by
  intro x hx
  have hshape := (pgSchemaLoop_calls nm models conn.showAllSchemasResult
    [DbCall.showAllSchemas nm]).2
  cases herr : (pgSchemaLoop nm models conn.showAllSchemasResult
      [DbCall.showAllSchemas nm]).2.2 with
  | some e =>
    simp only [pgSyncTask, herr] at hx
    rcases hshape x hx with hx2 | hx2
    · exact Or.inl (by simpa using hx2)
    · exact Or.inr (Or.inl hx2)
  | none =>
    cases hs : conn.syncResult with
    | ok u =>
      simp only [pgSyncTask, herr, hs] at hx
      rcases List.mem_append.mp hx with hx2 | hx2
      · rcases hshape x hx2 with hx3 | hx3
        · exact Or.inl (by simpa using hx3)
        · exact Or.inr (Or.inl hx3)
      · exact Or.inr (Or.inr (by simpa using hx2))
    | error e =>
      simp only [pgSyncTask, herr, hs] at hx
      rcases List.mem_append.mp hx with hx2 | hx2
      · rcases hshape x hx2 with hx3 | hx3
        · exact Or.inl (by simpa using hx3)
        · exact Or.inr (Or.inl hx3)
      · exact Or.inr (Or.inr (by simpa using hx2))

theorem pgSyncTask_err_calls (conn : ConnOracle) (nm : String) (f a : Bool)
    (models : List ModelDef)
    (h : (pgSyncTask conn nm f a models).2 = none) :
    DbCall.sync nm f a ∈ (pgSyncTask conn nm f a models).1 := by
  cases herr : (pgSchemaLoop nm models conn.showAllSchemasResult
      [DbCall.showAllSchemas nm]).2.2 with
  | some e => simp [pgSyncTask, herr] at h
  | none =>
    cases hs : conn.syncResult with
    | ok u => simp [pgSyncTask, herr, hs]
    | error e => simp [pgSyncTask, herr, hs] at h

theorem plainSyncTask_calls (conn : ConnOracle) (nm : String) (f a : Bool) :
    (plainSyncTask conn nm f a).1 = [DbCall.sync nm f a] := by
  unfold plainSyncTask
  cases conn.syncResult <;> rfl

theorem runSyncTask_err_sync (env : String → ConnOracle) (f a : Bool)
    (models : List ModelDef) (reg : Registry) (t : SyncTask)
    (hns : ∀ nm dl, t ≠ SyncTask.smart nm dl)
    (h : (runSyncTask env f a models reg t).error = none) :
    DbCall.sync t.connName f a ∈ (runSyncTask env f a models reg t).calls := by
  cases t with
  | smart nm dl => exact absurd rfl (hns nm dl)
  | pg nm => exact pgSyncTask_err_calls (env nm) nm f a models h
  | plain nm => rw [runSyncTask, plainSyncTask_calls]; simp [SyncTask.connName]

theorem runSyncTask_flags (env : String → ConnOracle) (f a : Bool)
    (models : List ModelDef) (reg : Registry) (t : SyncTask) :
    ∀ c fo al, DbCall.sync c fo al ∈ (runSyncTask env f a models reg t).calls →
      fo = f ∧ al = a := by
  intro c fo al hx
  cases t with
  | smart nm dl => simp [runSyncTask] at hx
  | pg nm =>
    rcases pgSyncTask_calls_shape (env nm) nm f a models _ hx with ht | ⟨⟨sc, ht⟩ | ht⟩
    · exact absurd ht (by simp)
    · exact absurd ht (by simp)
    · injection ht with h1 h2 h3; exact ⟨h2, h3⟩
  | plain nm =>
    rw [runSyncTask, plainSyncTask_calls] at hx
    simp at hx
    exact ⟨hx.2.1, hx.2.2⟩

theorem runSyncTasks_sync_mem (env : String → ConnOracle) (f a : Bool)
    (models : List ModelDef) :
    ∀ (ts : List SyncTask) (reg : Registry),
      (∀ t ∈ ts, ∀ nm dl, t ≠ SyncTask.smart nm dl) →
      (runSyncTasks env f a models ts reg).2.2 = none →
      ∀ t ∈ ts, DbCall.sync t.connName f a ∈ (runSyncTasks env f a models ts reg).2.1 := by
  intro ts
  induction ts with
  | nil => intro reg _ _ t ht; exact absurd ht (List.not_mem_nil t)
  | cons t0 rest ih =>
    intro reg hns herr t ht
    rw [runSyncTasks] at herr ⊢
    cases ho : (runSyncTask env f a models reg t0).error with
    | some e => rw [ho] at herr; simp at herr
    | none =>
      rw [ho] at herr
      simp only at herr
      rcases List.mem_cons.mp ht with heq | htrest
      · subst heq
        exact List.mem_append.mpr (Or.inl
          (runSyncTask_err_sync env f a models reg t (hns t (List.mem_cons_self t rest)) ho))
      · exact List.mem_append.mpr (Or.inr
          (ih (runSyncTask env f a models reg t0).registry
            (fun t2 ht2 => hns t2 (List.mem_cons_of_mem _ ht2)) herr t htrest))

theorem runSyncTasks_flags (env : String → ConnOracle) (f a : Bool)
    (models : List ModelDef) :
    ∀ (ts : List SyncTask) (reg : Registry) (c : String) (fo al : Bool),
      DbCall.sync c fo al ∈ (runSyncTasks env f a models ts reg).2.1 →
      fo = f ∧ al = a := by
  intro ts
  induction ts with
  | nil => intro reg c fo al hx; simp [runSyncTasks] at hx
  | cons t0 rest ih =>
    intro reg c fo al hx
    rw [runSyncTasks] at hx
    rcases List.mem_append.mp hx with hx2 | hx2
    · exact runSyncTask_flags env f a models reg t0 c fo al hx2
    · exact ih _ c fo al hx2

theorem initConnectionsLoop_char :
    ∀ (ds : List (String × ConnConfig)),
      (∀ p ∈ ds, connWellFormed p.2 = true) →
      initConnectionsLoop ds =
        .ok (ds.filterMap (fun p =>
          if ownedConn p.2 then some (p.1, buildConnection p.2) else none)) := by
  intro ds
  induction ds with
  | nil => intro _; rfl
  | cons p rest ih =>
    intro hwf
    obtain ⟨nm, c⟩ := p
    have hskip := connIsSkipped_wf (hwf (nm, c) (List.mem_cons_self _ rest))
    have hrec := ih (fun q hq => hwf q (List.mem_cons_of_mem _ hq))
    cases how : ownedConn c with
    | true =>
      rw [how] at hskip
      simp [initConnectionsLoop, hskip, hrec, List.filterMap_cons, how]
    | false =>
      rw [how] at hskip
      simp [initConnectionsLoop, hskip, hrec, List.filterMap_cons, how]

theorem buildSyncTasks_dry (sm al : Bool) :
    ∀ (ds : List (String × ConnConfig)),
      (∀ p ∈ ds, connWellFormed p.2 = true) →
      buildSyncTasks sm true al ds = .ok [] := by
  intro ds
  induction ds with
  | nil => intro _; rfl
  | cons p rest ih =>
    intro hwf
    obtain ⟨nm, c⟩ := p
    have hskip := connIsSkipped_wf (hwf (nm, c) (List.mem_cons_self _ rest))
    have hrec := ih (fun q hq => hwf q (List.mem_cons_of_mem _ hq))
    cases how : ownedConn c with
    | true =>
      rw [how] at hskip
      simp [buildSyncTasks, hskip, hrec]
    | false =>
      rw [how] at hskip
      simp [buildSyncTasks, hskip, hrec]

theorem buildSyncTasks_char (sm al : Bool) :
    ∀ (ds : List (String × ConnConfig)),
      (∀ p ∈ ds, connWellFormed p.2 = true) →
      buildSyncTasks sm false al ds =
        .ok (ds.filterMap (fun p =>
          if ownedConn p.2 then some (taskFor sm al p.1 p.2) else none)) := by
  intro ds
  induction ds with
  | nil => intro _; rfl
  | cons p rest ih =>
    intro hwf
    obtain ⟨nm, c⟩ := p
    have hskip := connIsSkipped_wf (hwf (nm, c) (List.mem_cons_self _ rest))
    have hrec := ih (fun q hq => hwf q (List.mem_cons_of_mem _ hq))
    cases how : ownedConn c with
    | true =>
      rw [how] at hskip
      simp [buildSyncTasks, hskip, hrec, List.filterMap_cons, how, taskFor]
    | false =>
      rw [how] at hskip
      simp [buildSyncTasks, hskip, hrec, List.filterMap_cons, how]

theorem migrateFlags_snd_eq_false {m : String} (h : m ≠ "alter") :
    (migrateFlags m).2 = false := by
  unfold migrateFlags
  by_cases hd : m = "drop" <;> simp [hd, h]

theorem taskFor_not_smart (sm al : Bool) (nm : String) (c : ConnConfig)
    (h : (sm && al) = false) :
    ∀ nm2 dl, taskFor sm al nm c ≠ SyncTask.smart nm2 dl := by
  intro nm2 dl
  unfold taskFor
  rw [h]
  by_cases hd : (effectiveDialect c).getD "" = "postgres" <;> simp [hd]

theorem runSmartTasks_vacuous (env : String → ConnOracle) (f a : Bool)
    (models : List ModelDef) :
    ∀ (ts : List SyncTask) (reg : Registry),
      (∀ t ∈ ts, ∃ nm dl, t = SyncTask.smart nm dl) →
      runSyncTasks env f a models ts reg = (reg, [], none) := by
  intro ts
  induction ts with
  | nil => intro reg _; rfl
  | cons t0 rest ih =>
    intro reg hsm
    obtain ⟨nm, dl, ht0⟩ := hsm t0 (List.mem_cons_self t0 rest)
    subst ht0
    rw [runSyncTasks]
    rw [show runSyncTask env f a models reg (SyncTask.smart nm dl) = ⟨reg, [], none⟩ from rfl]
    rw [ih reg (fun t ht => hsm t (List.mem_cons_of_mem _ ht))]
    rfl

/-! ## Claim theorems -/

/-- C2: for every configuration reaching the convergence step (its
connection entries pass the skip test without raising) with dryRun true and
a migration strategy other than safe, no synchronization task is built for
any connection, no database call (sync, createSchema, introspection) is
issued, the registry is untouched, and the completion callback is invoked
without error. -/
theorem claim_C2 (sm : Bool) (migrate : String) (ds : List (String × ConnConfig))
    (models : List ModelDef) (reg : Registry) (env : String → ConnOracle)
    (hm : migrate ≠ "safe") (hwf : ∀ p ∈ ds, connWellFormed p.2 = true) :
    buildSyncTasks sm true (migrateFlags migrate).2 ds = .ok [] ∧
    migrateSchema sm true migrate ds models reg env = ⟨[], reg, .ok⟩ := by
  have hb := buildSyncTasks_dry sm (migrateFlags migrate).2 ds hwf
  refine ⟨hb, ?_⟩
  simp [migrateSchema, hm, hb]

/-- C2 witness at a concrete configuration (Scenario B): one Postgres
connection, one owned model, migrate alter, smartMigrate true, dryRun
true. -/
theorem claim_C2_witness :
    migrateSchema true true "alter" [("main", { dialect := some "postgres" })]
      [{ globalId := "User", options := some {} }]
      [("user", { name := "User", connectionName := "main", tableName := "user", options := some {} })]
      (fun _ => {}) =
      ⟨[], [("user", { name := "User", connectionName := "main", tableName := "user", options := some {} })], .ok⟩ :=
  (claim_C2 true "alter" [("main", { dialect := some "postgres" })]
    [{ globalId := "User", options := some {} }]
    [("user", { name := "User", connectionName := "main", tableName := "user", options := some {} })]
    (fun _ => {}) (by decide) (by decide)).2

/-- C3 counterexample: with smartMigrate enabled and strategy alter, an
error-free run on an owned connection issues no sync call at all (the
pushed task function is never invoked), so the resulting flag pair is not
passed to that owned connection's sync primitive. -/
theorem claim_C3_counterexample :
    ownedConn { dialect := some "postgres" } = true ∧
    (migrateSchema true false "alter" [("main", ({ dialect := some "postgres" } : ConnConfig))] [] [] (fun _ => {})).result = .ok ∧
    (migrateSchema true false "alter" [("main", ({ dialect := some "postgres" } : ConnConfig))] [] [] (fun _ => {})).calls = [] ∧
    DbCall.sync "main" (migrateFlags "alter").1 (migrateFlags "alter").2 ∉
      (migrateSchema true false "alter" [("main", ({ dialect := some "postgres" } : ConnConfig))] [] [] (fun _ => {})).calls := by
  decide

/-- C3 amended: the strategy-to-flags mapping: safe completes immediately
with no database calls and the registry untouched; drop maps to force
without alter; alter maps to alter without force; any other strategy maps
to both flags false; every sync call issued in a run carries exactly the
run's flag pair; in a run that completes without error the pair is passed
to every owned connection's sync primitive, except under smartMigrate with
strategy alter: there the pushed task function is never invoked, so the
run succeeds with zero database calls and an untouched registry. -/
theorem claim_C3 :
    (∀ (sm dr : Bool) (ds : List (String × ConnConfig)) (models : List ModelDef)
        (reg : Registry) (env : String → ConnOracle),
      migrateSchema sm dr "safe" ds models reg env = ⟨[], reg, .ok⟩) ∧
    migrateFlags "drop" = (true, false) ∧
    migrateFlags "alter" = (false, true) ∧
    (∀ m : String, m ≠ "drop" → m ≠ "alter" → migrateFlags m = (false, false)) ∧
    (∀ (sm : Bool) (migrate : String) (ds : List (String × ConnConfig))
        (models : List ModelDef) (reg : Registry) (env : String → ConnOracle)
        (c : String) (fo al : Bool), migrate ≠ "safe" →
      DbCall.sync c fo al ∈ (migrateSchema sm false migrate ds models reg env).calls →
      fo = (migrateFlags migrate).1 ∧ al = (migrateFlags migrate).2) ∧
    (∀ (sm : Bool) (migrate : String) (ds : List (String × ConnConfig))
        (models : List ModelDef) (reg : Registry) (env : String → ConnOracle),
      migrate ≠ "safe" → (sm = true → migrate ≠ "alter") →
      (∀ p ∈ ds, connWellFormed p.2 = true) →
      (migrateSchema sm false migrate ds models reg env).result = .ok →
      ∀ p ∈ ds, ownedConn p.2 = true →
        DbCall.sync p.1 (migrateFlags migrate).1 (migrateFlags migrate).2 ∈
          (migrateSchema sm false migrate ds models reg env).calls) ∧
    (∀ (ds : List (String × ConnConfig)) (models : List ModelDef)
        (reg : Registry) (env : String → ConnOracle),
      (∀ p ∈ ds, connWellFormed p.2 = true) →
      migrateSchema true false "alter" ds models reg env = ⟨[], reg, .ok⟩) := by
  refine ⟨?_, rfl, rfl, ?_, ?_, ?_, ?_⟩
  · intro sm dr ds models reg env
    simp [migrateSchema]
  · intro m h1 h2
    simp [migrateFlags, h1, h2]
  · intro sm migrate ds models reg env c fo al hm hx
    cases hb : buildSyncTasks sm false (migrateFlags migrate).2 ds with
    | error e =>
      simp only [migrateSchema, hm, if_neg, ite_false, hb] at hx
      simp at hx
    | ok tasks =>
      simp only [migrateSchema, hm, if_neg, ite_false, hb] at hx
      simp only [Bool.false_eq_true, if_false] at hx
      exact runSyncTasks_flags env (migrateFlags migrate).1 (migrateFlags migrate).2
        models tasks reg c fo al hx
  · intro sm migrate ds models reg env hm hnotsmart hwf hres p hp howned
    have hb := buildSyncTasks_char sm (migrateFlags migrate).2 ds hwf
    simp only [migrateSchema, hm, if_neg, ite_false, hb] at hres ⊢
    simp only [Bool.false_eq_true, if_false] at hres ⊢
    have hsmal : (sm && (migrateFlags migrate).2) = false := by
      cases hsm : sm with
      | false => rfl
      | true =>
        rw [migrateFlags_snd_eq_false (hnotsmart hsm)]
        rfl
    have hns : ∀ t ∈ ds.filterMap (fun p =>
        if ownedConn p.2 then some (taskFor sm (migrateFlags migrate).2 p.1 p.2) else none),
        ∀ nm dl, t ≠ SyncTask.smart nm dl := by
      intro t ht nm dl
      obtain ⟨q, hq, hqt⟩ := List.mem_filterMap.mp ht
      by_cases how : ownedConn q.2 = true
      · rw [if_pos how] at hqt
        rw [← Option.some_inj.mp hqt]
        exact taskFor_not_smart sm (migrateFlags migrate).2 q.1 q.2 hsmal nm dl
      · rw [if_neg how] at hqt
        exact absurd hqt (by simp)
    have herr : (runSyncTasks env (migrateFlags migrate).1 (migrateFlags migrate).2 models
        (ds.filterMap (fun p => if ownedConn p.2 then some (taskFor sm (migrateFlags migrate).2 p.1 p.2) else none)) reg).2.2 = none := by
      cases he : (runSyncTasks env (migrateFlags migrate).1 (migrateFlags migrate).2 models
          (ds.filterMap (fun p => if ownedConn p.2 then some (taskFor sm (migrateFlags migrate).2 p.1 p.2) else none)) reg).2.2 with
      | none => rfl
      | some e => rw [he] at hres; simp at hres
    have hmem : taskFor sm (migrateFlags migrate).2 p.1 p.2 ∈
        ds.filterMap (fun p => if ownedConn p.2 then some (taskFor sm (migrateFlags migrate).2 p.1 p.2) else none) := by
      refine List.mem_filterMap.mpr ⟨p, hp, ?_⟩
      simp [howned]
    have := runSyncTasks_sync_mem env (migrateFlags migrate).1 (migrateFlags migrate).2
      models _ reg hns herr _ hmem
    rwa [taskFor_connName] at this
  · intro ds models reg env hwf
    have hb := buildSyncTasks_char true true ds hwf
    have hsm : ∀ t ∈ ds.filterMap (fun p =>
        if ownedConn p.2 then some (taskFor true true p.1 p.2) else none),
        ∃ nm dl, t = SyncTask.smart nm dl := by
      intro t ht
      obtain ⟨p, hp, hpt⟩ := List.mem_filterMap.mp ht
      by_cases how : ownedConn p.2 = true
      · rw [if_pos how] at hpt
        refine ⟨p.1, (effectiveDialect p.2).getD "", ?_⟩
        have htf : taskFor true true p.1 p.2 =
            SyncTask.smart p.1 ((effectiveDialect p.2).getD "") := by
          simp [taskFor]
        rw [← htf]
        exact (Option.some_inj.mp hpt).symm
      · rw [if_neg how] at hpt
        exact absurd hpt (by simp)
    have hrun := runSmartTasks_vacuous env false true models
      (ds.filterMap (fun p => if ownedConn p.2 then some (taskFor true true p.1 p.2) else none))
      reg hsm
    simp [migrateSchema, migrateFlags, hb, hrun]

/-- C3 witness at concrete inputs: the safe strategy on a concrete
configuration, the default flag mapping at a concrete strategy, the
owned-connection sync invocation of a concrete successful drop run, and
the vacuous success of a concrete smart alter run. -/
theorem claim_C3_witness :
    migrateSchema true false "safe" [("main", { dialect := some "postgres" })] [] [] (fun _ => {}) =
      ⟨[], [], .ok⟩ ∧
    migrateFlags "classic" = (false, false) ∧
    DbCall.sync "main" (migrateFlags "drop").1 (migrateFlags "drop").2 ∈
      (migrateSchema false false "drop" [("main", { dialect := some "mysql" })] [] [] (fun _ => {})).calls ∧
    migrateSchema true false "alter" [("main", { dialect := some "postgres" })] [] [] (fun _ => {}) =
      ⟨[], [], .ok⟩ := by
  refine ⟨claim_C3.1 true false _ [] [] _, claim_C3.2.2.2.1 "classic" (by decide) (by decide),
    ?_, ?_⟩
  · exact claim_C3.2.2.2.2.2.1 false "drop" [("main", { dialect := some "mysql" })] [] []
      (fun _ => {}) (by decide) (by decide) (by decide) (by decide)
      ("main", { dialect := some "mysql" }) (by decide) (by decide)
  · exact claim_C3.2.2.2.2.2.2 [("main", { dialect := some "postgres" })] [] []
      (fun _ => {}) (by decide)

/-- C4: the claim that definitions lacking an options object are skipped by
every pass without error holds for model binding, association wiring,
junction-index accumulation, and the smart-migration path, but fails on the
Postgres schema-namespace pre-creation path: that loop reads
modelDef.options.schema without a guard, so a definition without options
raises a TypeError that rejects the task and the run completes with an
error instead of skipping. Evaluated here at the concrete failing input. -/
theorem claim_C4_code_bug :
    defineModelsPass1 [("default", SequelizeConn.fromCredentials none none none {})] "default"
      [{ globalId := "User" }] [] [] = .ok ([], []) ∧
    defineModelsPass2 [] [{ globalId := "User" }] ⟨false⟩ = ([], ⟨false⟩) ∧
    defineModelsPass3 [{ globalId := "User" }] [] = [] ∧
    smartSyncTask {} "main" "postgres" false true [{ globalId := "User" }] [] =
      ⟨[], [DbCall.sync "main" false true], none⟩ ∧
    migrateSchema false false "alter" [("main", { dialect := some "postgres" })]
      [{ globalId := "User" }] [] (fun _ => {}) =
      ⟨[DbCall.showAllSchemas "main"], [],
        .err "TypeError: Cannot read property schema of undefined"⟩ := by
  decide

/-- C9: index introspection never propagates an error: on a dialect other
than postgres and mysql it runs no query and returns the empty list, and on
a supported dialect any query failure is caught and treated as zero
existing indexes. -/
theorem claim_C9 (conn : ConnOracle) (tableName dialect : String) :
    (dialect ≠ "postgres" → dialect ≠ "mysql" →
      deduplicateIndexes conn tableName dialect = []) ∧
    (∀ e, dialect = "postgres" → conn.pgIndexQuery (strToLower tableName) = .error e →
      deduplicateIndexes conn tableName dialect = []) ∧
    (∀ e, dialect = "mysql" → conn.mysqlIndexQuery tableName = .error e →
      deduplicateIndexes conn tableName dialect = []) := by
  refine ⟨?_, ?_, ?_⟩
  · intro h1 h2
    simp [deduplicateIndexes, h1, h2]
  · intro e h1 h2
    simp [deduplicateIndexes, h1, h2]
  · intro e h1 h2
    by_cases hp : dialect = "postgres"
    · rw [hp] at h1; simp at h1
    · simp [deduplicateIndexes, hp, h1, h2]

/-- C9 witness at concrete inputs: an unsupported dialect, a failing
Postgres catalog query, and a failing MySQL SHOW INDEX query. -/
theorem claim_C9_witness :
    deduplicateIndexes {} "user" "sqlite" = [] ∧
    deduplicateIndexes { pgIndexQuery := fun _ => .error "no table" } "user" "postgres" = [] ∧
    deduplicateIndexes { mysqlIndexQuery := fun _ => .error "no table" } "user" "mysql" = [] :=
  ⟨(claim_C9 {} "user" "sqlite").1 (by decide) (by decide),
    (claim_C9 { pgIndexQuery := fun _ => .error "no table" } "user" "postgres").2.1
      "no table" rfl rfl,
    (claim_C9 { mysqlIndexQuery := fun _ => .error "no table" } "user" "mysql").2.2
      "no table" rfl rfl⟩

/-- C10: the overridden module loader hands back exactly the definitions
whose options object is missing or whose options carry no tableName; a
definition with an options object but no tableName is therefore classified
as a Waterline model at the loader boundary, while the binding pass
classifies a definition as owned solely by the presence of options (a
definition without options is skipped by the binding pass with no other
effect). -/
theorem claim_C10 :
    (∀ (defs : List (String × ModelDef)) (k : String) (m : ModelDef),
      (k, m) ∈ loadModelsOverride defs ↔
        ((k, m) ∈ defs ∧
          (m.options = none ∨ ∃ o, m.options = some o ∧ o.tableName = none))) ∧
    (∀ (m : ModelDef) (o : ModelOptions), m.options = some o → o.tableName = none →
      waterlineKeep m = true ∧ ownedDef m = true) ∧
    (∀ (conns : Connections) (dc : String) (d : ModelDef) (rest : List ModelDef)
        (reg : Registry) (tr : List String), d.options = none →
      defineModelsPass1 conns dc (d :: rest) reg tr =
        defineModelsPass1 conns dc rest reg tr) := by
  have hiff : ∀ m : ModelDef, waterlineKeep m = true ↔
      (m.options = none ∨ ∃ o, m.options = some o ∧ o.tableName = none) := by
    intro m
    unfold waterlineKeep
    cases hm : m.options with
    | none => simp
    | some o => cases ho : o.tableName <;> simp [ho]
  have hfil : ∀ defs : List (String × ModelDef),
      loadModelsOverride defs = defs.filter (fun p => waterlineKeep p.2) := by
    intro defs
    induction defs with
    | nil => rfl
    | cons p rest ih =>
      obtain ⟨k0, m0⟩ := p
      by_cases hw : waterlineKeep m0 = true <;>
        simp [loadModelsOverride, List.filter_cons, hw, ih]
  refine ⟨?_, ?_, ?_⟩
  · intro defs k m
    rw [hfil, List.mem_filter]
    exact and_congr_right (fun _ => hiff m)
  · intro m o hm ho
    refine ⟨(hiff m).mpr (Or.inr ⟨o, hm, ho⟩), ?_⟩
    simp [ownedDef, hm]
  · intro conns dc d rest reg tr h
    simp [defineModelsPass1, h]

/-- C10 witness at a concrete definition with an options object but no
tableName: kept by the loader, yet owned at the binding boundary. -/
theorem claim_C10_witness :
    (("user", ({ globalId := "User", options := some {} } : ModelDef)) ∈
      loadModelsOverride [("user", { globalId := "User", options := some {} })]) ∧
    waterlineKeep { globalId := "User", options := some {} } = true ∧
    ownedDef { globalId := "User", options := some {} } = true := by
  have h2 := claim_C10.2.1 { globalId := "User", options := some {} } {} rfl rfl
  refine ⟨?_, h2.1, h2.2⟩
  exact (claim_C10.1 [("user", { globalId := "User", options := some {} })] "user"
    { globalId := "User", options := some {} }).mpr
    ⟨by simp, Or.inr ⟨{}, rfl, rfl⟩⟩

/-- C5: while a definition's associations function executes, any
belongsToMany call whose object-form through resolves to a registered model
whose declared indexes include a non-unique two-field index has its
uniqueKey option set to false before it reaches the original method; once
the function returns the captured original method is restored, and outside
the dynamic extent belongsToMany calls pass through unmodified. -/
theorem claim_C5 :
    (∀ (reg : Registry) (opts : BTMOptions) (t : ThroughObj) (ref : ThroughModelRef)
        (bm : BoundModel) (o : ModelOptions) (idxs : List IndexSpec) (idx : IndexSpec)
        (fs : List String),
      opts.through = some (.obj t) → t.model = some ref →
      regGet reg (strToLower (resolveThroughModelName ref)) = some bm →
      bm.options = some o → o.indexes = some idxs → idx ∈ idxs →
      idx.unique = some false → idx.fields = some fs → fs.length = 2 →
      (interceptedBelongsToMany reg opts).uniqueKey = some false) ∧
    (∀ (reg : Registry) (st : BTMState) (d : ModelDef), (setAssociation reg st d).2 = st) ∧
    (∀ (reg : Registry) (c : BTMCall), dispatchBelongsToMany reg ⟨false⟩ c = c) ∧
    (∀ (reg : Registry) (st : BTMState) (d : ModelDef) (calls : List BTMCall) (c : BTMCall),
      d.associations = some calls → c ∈ calls →
      { c with opts := interceptedBelongsToMany reg c.opts } ∈ (setAssociation reg st d).1) := by
  refine ⟨?_, ?_, ?_, ?_⟩
  · intro reg opts t ref bm o idxs idx fs hth hmod hreg hopt hidx hmem hu hf hlen
    have hTrue : throughHasNonUniqueIndex reg t = true := by
      simp only [throughHasNonUniqueIndex, hmod, hreg, hopt, hidx]
      refine List.any_eq_true.mpr ⟨idx, hmem, ?_⟩
      simp [hu, hf, hlen]
    rw [interceptedBelongsToMany, hth]
    simp only [hTrue, if_true]
    by_cases htu : (t.unique == some false) = true <;> simp [htu]
  · intro reg st d
    unfold setAssociation
    cases d.associations <;> rfl
  · intro reg c
    simp [dispatchBelongsToMany]
  · intro reg st d calls c hassoc hmem
    unfold setAssociation
    rw [hassoc]
    have hd : dispatchBelongsToMany reg { overridden := true } c =
        { c with opts := interceptedBelongsToMany reg c.opts } := by
      simp [dispatchBelongsToMany]
    exact hd ▸ List.mem_map_of_mem _ hmem

/-- C5 witness at a concrete junction setup (Scenario D): a registered
UserRole model with a non-unique two-field index, a belongsToMany call
going through it, and a definition issuing that call. -/
theorem claim_C5_witness :
    (interceptedBelongsToMany
      [("userrole", { name := "UserRole", connectionName := "default", tableName := "userrole", options := some { indexes := some [{ fields := some ["userId", "roleId"], unique := some false }] } })]
      { through := some (.obj { model := some (.modelStr "UserRole") }) }).uniqueKey =
        some false ∧
    (setAssociation
      [("userrole", { name := "UserRole", connectionName := "default", tableName := "userrole", options := some { indexes := some [{ fields := some ["userId", "roleId"], unique := some false }] } })]
      ⟨false⟩
      { globalId := "User", options := some {}, associations := some [{ target := "Role", opts := { through := some (.obj { model := some (.modelStr "UserRole") }) } }] }).2 =
      ⟨false⟩ := by
  refine ⟨?_, ?_⟩
  · exact claim_C5.1
      [("userrole", { name := "UserRole", connectionName := "default", tableName := "userrole", options := some { indexes := some [{ fields := some ["userId", "roleId"], unique := some false }] } })]
      { through := some (.obj { model := some (.modelStr "UserRole") }) }
      { model := some (.modelStr "UserRole") } (.modelStr "UserRole")
      { name := "UserRole", connectionName := "default", tableName := "userrole", options := some { indexes := some [{ fields := some ["userId", "roleId"], unique := some false }] } }
      { indexes := some [{ fields := some ["userId", "roleId"], unique := some false }] }
      [{ fields := some ["userId", "roleId"], unique := some false }]
      { fields := some ["userId", "roleId"], unique := some false }
      ["userId", "roleId"] rfl rfl (by decide) rfl rfl (by decide) rfl rfl rfl
  · exact claim_C5.2.1
      [("userrole", { name := "UserRole", connectionName := "default", tableName := "userrole", options := some { indexes := some [{ fields := some ["userId", "roleId"], unique := some false }] } })]
      ⟨false⟩
      { globalId := "User", options := some {}, associations := some [{ target := "Role", opts := { through := some (.obj { model := some (.modelStr "UserRole") }) } }] }

/-- C6 counterexample: in the junction-index accumulation pass, an eligible
entry (unique false, two fields) is NOT appended when a pending index with
the same fields but a different unique flag exists, although no pending
index equals it structurally on fields plus unique — so the pass
deduplicates on fields alone, not on fields plus unique as claimed. -/
theorem claim_C6_counterexample :
    defineModelsPass3
      [{ globalId := "UserRole", options := some { indexes := some [{ fields := some ["userId", "roleId"], unique := some false }] } }]
      [("userrole", { name := "UserRole", connectionName := "default", tableName := "userrole", pendingIndexes := [{ fields := some ["userId", "roleId"], unique := some true }] })] =
      [("userrole", { name := "UserRole", connectionName := "default", tableName := "userrole", pendingIndexes := [{ fields := some ["userId", "roleId"], unique := some true }] })] ∧
    junctionIndexEligible { fields := some ["userId", "roleId"], unique := some false } = true ∧
    (∀ p ∈ [({ fields := some ["userId", "roleId"], unique := some true } : IndexSpec)],
      ¬(p.fields = some ["userId", "roleId"] ∧ p.unique = some false)) := by
  decide

/-- C6 amended: in the junction-index accumulation pass an eligible entry
(unique false, at least two fields) is appended exactly when no
already-pending index has an identical ordered fields list — the unique
flag and the name play no role in the deduplication equality — and an
ineligible entry is never appended. -/
theorem claim_C6 (pending : List IndexSpec) (idx : IndexSpec)
    (h : junctionIndexEligible idx = true) :
    (pushJunctionIndex pending idx = pending ++ [idx] ∨
      pushJunctionIndex pending idx = pending) ∧
    (pushJunctionIndex pending idx = pending ++ [idx] ↔
      ¬ ∃ p ∈ pending, p.fields = idx.fields) ∧
    (∀ idx2 : IndexSpec, junctionIndexEligible idx2 = false →
      pushJunctionIndex pending idx2 = pending) := by
  have hlen : pending ≠ pending ++ [idx] := by
    intro hcontra
    have := congrArg List.length hcontra
    simp at this
  have hval : pushJunctionIndex pending idx =
      if pending.any (fun p => p.fields == idx.fields) then pending
      else pending ++ [idx] := by
    simp [pushJunctionIndex, h]
  by_cases ha : (pending.any (fun p => p.fields == idx.fields)) = true
  · rw [if_pos ha] at hval
    refine ⟨Or.inr hval, ?_, ?_⟩
    · constructor
      · intro hc
        rw [hval] at hc
        exact absurd hc hlen
      · intro hne
        exfalso
        obtain ⟨p, hp, hpf⟩ := List.any_eq_true.mp ha
        exact hne ⟨p, hp, by simpa using hpf⟩
    · intro idx2 h2
      simp [pushJunctionIndex, h2]
  · rw [if_neg ha] at hval
    refine ⟨Or.inl hval, ?_, ?_⟩
    · constructor
      · intro _ hc
        obtain ⟨p, hp, hpf⟩ := hc
        exact ha (List.any_eq_true.mpr ⟨p, hp, by simpa using hpf⟩)
      · intro _
        exact hval
    · intro idx2 h2
      simp [pushJunctionIndex, h2]

/-- C6 amended witness at concrete inputs: an eligible index is appended to
an empty pending list, and is not appended when an index with the same
fields list (but opposite unique flag) is pending. -/
theorem claim_C6_witness :
    pushJunctionIndex [] { fields := some ["a", "b"], unique := some false } =
      [{ fields := some ["a", "b"], unique := some false }] ∧
    pushJunctionIndex [{ fields := some ["a", "b"], unique := some true }]
      { fields := some ["a", "b"], unique := some false } =
      [{ fields := some ["a", "b"], unique := some true }] := by
  have h1 := claim_C6 [] { fields := some ["a", "b"], unique := some false } (by decide)
  have h2 := claim_C6 [{ fields := some ["a", "b"], unique := some true }]
    { fields := some ["a", "b"], unique := some false } (by decide)
  refine ⟨h1.2.1.mpr (by simp), ?_⟩
  rcases h2.1 with hc | hc
  · have := h2.2.1.mp hc
    exact absurd ⟨{ fields := some ["a", "b"], unique := some true }, by simp, rfl⟩ this
  · exact hc

/-- C7 counterexample: with the default connection name present, connection
building still fails (with a TypeError rather than returning a map) on a
configuration containing an entry that has no adapter, no dialect, and no
options object. -/
theorem claim_C7_counterexample :
    (([("default", ({ dialect := some "postgres" } : ConnConfig)), ("bad", {})]).any
      (fun p => p.1 == "default")) = true ∧
    initConnections [("default", { dialect := some "postgres" }), ("bad", {})] "default" =
      .error "TypeError: Cannot read property dialect of undefined" := by
  decide

/-- C7 amended: connection building throws the default-connection error
exactly when the default name is absent from the configured map; on
configurations whose entries each carry an adapter, a dialect, or an
options object, it otherwise returns one live connection per owned entry
(an entry with none of the three instead raises a TypeError, as the
counterexample shows). -/
theorem claim_C7 (ds : List (String × ConnConfig)) (name : String) :
    ((ds.any fun p => p.1 == name) = false →
      initConnections ds name =
        .error ("Default connection " ++ name ++ " not found in config/connections")) ∧
    ((∀ p ∈ ds, connWellFormed p.2 = true) → (ds.any fun p => p.1 == name) = true →
      initConnections ds name =
        .ok (ds.filterMap (fun p =>
          if ownedConn p.2 then some (p.1, buildConnection p.2) else none))) := by
  constructor
  · intro h
    simp [initConnections, h]
  · intro hwf h
    rw [initConnections, if_pos h]
    exact initConnectionsLoop_char ds hwf

/-- C7 amended witness at concrete inputs: a missing default name throws
the configuration error, and a well-formed map yields one connection per
owned entry (the adapter-marked entry is skipped). -/
theorem claim_C7_witness :
    initConnections [("main", { dialect := some "postgres" })] "default" =
      .error "Default connection default not found in config/connections" ∧
    initConnections [("default", { dialect := some "postgres" }), ("disk", { adapter := some "sails-disk" })] "default" =
      .ok [("default", SequelizeConn.fromCredentials none none none {})] := by
  constructor
  · exact (claim_C7 [("main", { dialect := some "postgres" })] "default").1 (by decide)
  · have h := (claim_C7 [("default", { dialect := some "postgres" }), ("disk", { adapter := some "sails-disk" })] "default").2 (by decide) (by decide)
    rw [h]
    decide

/-- C8 counterexample: two owned definitions resolving to the same
lower-cased identifier do not make the definition pass fail: it completes,
realizes both, and the later registration silently overwrites the
earlier. -/
theorem claim_C8_counterexample :
    defineModelsPass1 [("default", SequelizeConn.fromCredentials none none none {})] "default"
      [{ globalId := "Foo", options := some {} }, { globalId := "FOO", options := some {} }] [] [] =
      .ok ([("foo", defineBoundModel "default" { globalId := "FOO", options := some {} } {})],
        ["Foo", "FOO"]) ∧
    keyOf { globalId := "Foo", options := some {} } =
      keyOf { globalId := "FOO", options := some {} } := by
  decide

/-- C8 amended: the definition pass registers each owned definition under
its lower-cased global identifier; when two owned definitions resolve to
the same identifier the pass does not fail — both are realized and the
later definition silently overwrites the earlier registration. -/
theorem claim_C8 (conns : Connections) (dc : String) (d1 d2 : ModelDef)
    (o1 o2 : ModelOptions) (s1 s2 : SequelizeConn) (reg : Registry) (tr : List String)
    (h1 : d1.options = some o1) (h2 : d2.options = some o2)
    (hc1 : connGet conns (resolveConnectionName d1 dc) = some s1)
    (hc2 : connGet conns (resolveConnectionName d2 dc) = some s2) :
    (defineModelsPass1 conns dc [d1] reg tr =
      .ok (regSet reg (keyOf d1) (defineBoundModel (resolveConnectionName d1 dc) d1 o1),
        tr ++ [d1.globalId])) ∧
    (keyOf d1 = keyOf d2 →
      defineModelsPass1 conns dc [d1, d2] reg tr =
        .ok (regSet (regSet reg (keyOf d1) (defineBoundModel (resolveConnectionName d1 dc) d1 o1)) (keyOf d2) (defineBoundModel (resolveConnectionName d2 dc) d2 o2),
          tr ++ [d1.globalId, d2.globalId]) ∧
      regGet (regSet (regSet reg (keyOf d1) (defineBoundModel (resolveConnectionName d1 dc) d1 o1)) (keyOf d2) (defineBoundModel (resolveConnectionName d2 dc) d2 o2)) (keyOf d1) =
        some (defineBoundModel (resolveConnectionName d2 dc) d2 o2)) := by
  constructor
  · simp [defineModelsPass1, h1, hc1]
  · intro hk
    constructor
    · simp [defineModelsPass1, h1, h2, hc1, hc2]
    · rw [hk, regGet_set_self]

/-- C8 amended witness at the concrete colliding pair Foo and FOO. -/
theorem claim_C8_witness :
    defineModelsPass1 [("default", SequelizeConn.fromCredentials none none none {})] "default"
      [{ globalId := "Bar", options := some {} }] [] [] =
      .ok ([("bar", defineBoundModel "default" { globalId := "Bar", options := some {} } {})],
        ["Bar"]) ∧
    regGet (regSet (regSet [] (keyOf { globalId := "Foo", options := some ({} : ModelOptions) }) (defineBoundModel (resolveConnectionName { globalId := "Foo", options := some {} } "default") { globalId := "Foo", options := some {} } {})) (keyOf { globalId := "FOO", options := some ({} : ModelOptions) }) (defineBoundModel (resolveConnectionName { globalId := "FOO", options := some {} } "default") { globalId := "FOO", options := some {} } {})) (keyOf { globalId := "Foo", options := some ({} : ModelOptions) }) =
      some (defineBoundModel (resolveConnectionName { globalId := "FOO", options := some {} } "default") { globalId := "FOO", options := some {} } {}) := by
  constructor
  · have h := (claim_C8 [("default", SequelizeConn.fromCredentials none none none {})] "default"
      { globalId := "Bar", options := some {} } { globalId := "Bar", options := some {} } {} {}
      (SequelizeConn.fromCredentials none none none {}) (SequelizeConn.fromCredentials none none none {})
      [] [] rfl rfl (by decide) (by decide)).1
    rw [h]
    decide
  · exact ((claim_C8 [("default", SequelizeConn.fromCredentials none none none {})] "default"
      { globalId := "Foo", options := some {} } { globalId := "FOO", options := some {} } {} {}
      (SequelizeConn.fromCredentials none none none {}) (SequelizeConn.fromCredentials none none none {})
      [] [] rfl rfl (by decide) (by decide)).2 (by decide)).2

/-- C1: the claim describes the smart-migration convergence task
(introspect each owned model's table, replace the pending-index list with
the derived-name filter, then sync with force false and alter true), and
this is what the body of the task function would do — but the smart branch
pushes that async function itself onto the task list without invoking it,
and Promise.all treats a function element as an already-settled value, so
in the program no introspection occurs, the pending-index list is never
filtered, and the sync primitive is never invoked on the smart path: the
run succeeds having issued zero database calls with the registry
untouched. Evaluated at Scenario A extended with pending indexes and an
existing index named user_a_b: the run does nothing, while the
never-invoked body would have introspected, dropped the user_a_b entry,
kept the user_a_c entry, and invoked sync with force false and alter
true. -/
theorem claim_C1_code_bug :
    migrateSchema true false "alter" [("main", { dialect := some "postgres" })]
      [{ globalId := "User", options := some {} }]
      [("user", { name := "User", connectionName := "main", tableName := "user", options := some {}, pendingIndexes := [{ fields := some ["a", "b"], unique := some false }, { fields := some ["a", "c"], unique := some false }] })]
      (fun _ => { pgIndexQuery := fun t => if t = "user" then .ok [{ indexname := "user_a_b", indexdef := "CREATE INDEX" }] else .ok [] }) =
      ⟨[],
        [("user", { name := "User", connectionName := "main", tableName := "user", options := some {}, pendingIndexes := [{ fields := some ["a", "b"], unique := some false }, { fields := some ["a", "c"], unique := some false }] })],
        .ok⟩ ∧
    smartSyncTask { pgIndexQuery := fun t => if t = "user" then .ok [{ indexname := "user_a_b", indexdef := "CREATE INDEX" }] else .ok [] }
      "main" "postgres" false true
      [{ globalId := "User", options := some {} }]
      [("user", { name := "User", connectionName := "main", tableName := "user", options := some {}, pendingIndexes := [{ fields := some ["a", "b"], unique := some false }, { fields := some ["a", "c"], unique := some false }] })] =
      ⟨[("user", { name := "User", connectionName := "main", tableName := "user", options := some {}, pendingIndexes := [{ fields := some ["a", "c"], unique := some false }] })],
        [DbCall.introspect "main" "user" "postgres", DbCall.sync "main" false true],
        none⟩ := by
  decide


end SailsSequelize
